import Mathlib

/-!
# Verification of the audio transcription pipeline

A shallow embedding of the task-processing core of the repository:

* `app/transcriber.py` — segmentation arithmetic, the per-segment
  extraction/transcription loop of `transcribe_audio_file_streaming`,
  the progress formula, the Grok summarization wrapper, and the
  `SessionManager` retry configuration;
* the FastAPI background pipeline (`process_audio_from_file`,
  `process_youtube_url`) — status/progress patch sequences, result
  composition and writing, and source-file cleanup;
* `app/db.py` — the `update_task` partial-update semantics and
  `cleanup_old_tasks`.

Side effects are modelled as explicit event traces: every `update_task`
call becomes a `Patch` event carrying exactly the fields the call
supplies, and every attempted `os.remove` becomes a removal event.
External collaborators (ffmpeg, the Gemini transcription API, the Grok
summarization API, the result-file write) are modelled as per-call
outcome parameters, so each theorem quantifies over the behaviours of
the outside world that the code can observe.
-/

namespace AmwaySpeech

/-! ## Segmentation arithmetic (`app/transcriber.py`) -/

/-- `SEGMENT_DURATION = 10 * 60` (transcriber.py line 38). -/
def SEGMENT_DURATION : Nat := 10 * 60

/-- `num_segments = (duration_seconds // SEGMENT_DURATION)
    + (1 if duration_seconds % SEGMENT_DURATION else 0)`
(transcriber.py lines 144–146), parametric in the segment length. -/
def num_segments (D L : Nat) : Nat :=
  D / L + (if D % L = 0 then 0 else 1)

/-- `start_sec = i * SEGMENT_DURATION` (transcriber.py line 157). -/
def seg_start (L i : Nat) : Nat := i * L

/-- `end_sec = min((i + 1) * SEGMENT_DURATION, duration_seconds)`
(transcriber.py line 158). -/
def seg_end (D L i : Nat) : Nat := min ((i + 1) * L) D

/-- `if duration_seconds == 0: duration_seconds = SEGMENT_DURATION`
(transcriber.py lines 139–140): a probed duration of 0 (the
`get_audio_duration` failure value) is replaced by the default segment
length, not treated as fatal. -/
def effective_duration (probed : Nat) : Nat :=
  if probed = 0 then SEGMENT_DURATION else probed

/-- The number of loop iterations the engine actually performs for a
probed duration, after the zero-duration substitution. -/
def segment_count (probed : Nat) : Nat :=
  num_segments (effective_duration probed) SEGMENT_DURATION

/-! ## Progress formula -/

/-- `progress_range = 90 - initial_progress` (transcriber.py line 151),
Python integer subtraction. -/
def progress_range (initial_progress : Nat) : Int :=
  90 - (initial_progress : Int)

/-- Round a scaled significand to the nearest integer, ties to even —
the IEEE-754 default rounding. -/
def round_half_even (x : ℚ) : Int :=
  if x - ⌊x⌋ < 1/2 then ⌊x⌋
  else if 1/2 < x - ⌊x⌋ then ⌊x⌋ + 1
  else if ⌊x⌋ % 2 = 0 then ⌊x⌋ else ⌊x⌋ + 1

/-- The IEEE-754 binary64 value nearest to a rational: the significand
is scaled into `[2^52, 2^53)` and rounded to nearest, ties to even.
Overflow and subnormals are not modelled (no clamping at `2^1024` or
below `2^-1022`): every operand of the progress computation lies in the
normal range — `(i+1)/num_segments ≥ 1/num_segments`, and
`num_segments` is bounded by the ffprobe duration, itself a finite
double — so the model is exact for all reachable values. -/
def fl (x : ℚ) : ℚ :=
  if x = 0 then 0
  else if 0 < x then
    (round_half_even (x / 2 ^ (Int.log 2 x - 52)) : ℚ) * 2 ^ (Int.log 2 x - 52)
  else
    -((round_half_even (-x / 2 ^ (Int.log 2 (-x) - 52)) : ℚ) * 2 ^ (Int.log 2 (-x) - 52))

/-- Python `int()` on a float: truncation toward zero. -/
def py_trunc (x : ℚ) : Int := if 0 ≤ x then ⌊x⌋ else ⌈x⌉

/-- `segment_progress = int(initial_progress
      + ((i + 1) / num_segments) * progress_range)`
(transcriber.py line 237), modelling the CPython double arithmetic
operation by operation: `(i+1)/num_segments` is a correctly rounded
binary64 division, the multiplication by `progress_range` and the
addition of `initial_progress` are each correctly rounded (the int
operands convert to doubles exactly — the program passes
`initial_progress ∈ {0, 10}`, and every theorem below assumes
`initial_progress ≤ 90`), and `int()` truncates toward zero. -/
def segment_progress (initial_progress n i : Nat) : Int :=
  py_trunc (fl ((initial_progress : ℚ)
    + fl (fl (((i : ℚ) + 1) / (n : ℚ)) * ((90 : ℚ) - (initial_progress : ℚ)))))

/-- Modelled from the spec's words (§4.3 step d): `progress =
initial_progress + round((i+1)/num_segments × (90 − initial_progress))`,
i.e. rounding to the nearest integer instead of the code's truncation. -/
def spec_segment_progress (initial_progress n i : Nat) : Int :=
  (initial_progress : Int) + round (((i : ℚ) + 1) / (n : ℚ) * ((90 : ℚ) - (initial_progress : ℚ)))

/-! ## Per-segment behaviour of the environment

One constructor per control path of the segment loop body
(transcriber.py lines 156–245):

* `extract_raise`: the `subprocess.run` ffmpeg call itself raises
  (e.g. `TimeoutExpired`) — handled by the outer `except` (line 240);
  `file_exists` records whether a partial output file is on disk.
* `extract_fail`: ffmpeg returns a nonzero exit code or produced no
  output (`result.returncode != 0 or not os.path.exists(segment_path)`,
  line 181) — handled by the `continue` branch (lines 182–184);
  `file_exists` records whether a partial output file is on disk.
* `transcribe_raise`: the Gemini upload / poll / generate sequence
  raises (the segment file exists at that point) — outer `except`.
* `transcribed`: the API returned; `text` is `response.text or ""`.
-/
inductive SegBehavior
  | extract_raise (msg : String) (file_exists : Bool)
  | extract_fail (file_exists : Bool)
  | transcribe_raise (msg : String)
  | transcribed (text : String)
deriving DecidableEq

/-- Whether the segment's extraction or transcription failed (the
`transcribed` path is the only non-failing one; an empty transcription
is a successful call that returned no content). -/
def seg_failed (b : SegBehavior) : Bool :=
  match b with
  | .transcribed _ => false
  | _ => true

/-- The text appended to `full_text` for segment `i` (0-based):
real text on success, else the sentinel markers of transcriber.py
lines 183, 228 and 242 (`str(e)[:100]` is `String.take 100`). -/
def seg_text (i : Nat) (b : SegBehavior) : String :=
  match b with
  | .extract_fail _ =>
      "[片段 " ++ (toString (i + 1) ++ " 錯誤: 提取失敗]")
  | .extract_raise msg _ =>
      "[片段 " ++ (toString (i + 1) ++ (" 錯誤: " ++ (msg.take 100 ++ "]")))
  | .transcribe_raise msg =>
      "[片段 " ++ (toString (i + 1) ++ (" 錯誤: " ++ (msg.take 100 ++ "]")))
  | .transcribed t =>
      if t = "" then "[片段 " ++ (toString (i + 1) ++ ": 無內容]") else t

/-- The `full_text` list built by the loop: one entry per segment, in
index order, regardless of per-segment success or failure. -/
def seg_texts (n : Nat) (seg : Nat → SegBehavior) : List String :=
  (List.range n).map fun i => seg_text i (seg i)

/-- How many times the segment's bytes are submitted to the
transcription client (the Gemini upload + generate sequence,
transcriber.py lines 186–216): once when extraction succeeded,
never otherwise.  There is no retry loop around it. -/
def seg_transcribe_calls (b : SegBehavior) : Nat :=
  match b with
  | .extract_raise _ _ => 0
  | .extract_fail _ => 0
  | .transcribe_raise _ => 1
  | .transcribed _ => 1

/-- Whether the local segment artifact is on disk when the loop body
for this segment ends. -/
def seg_file_exists_after (b : SegBehavior) : Bool :=
  match b with
  | .extract_raise _ file_exists => file_exists
  | .extract_fail file_exists => file_exists
  | .transcribe_raise _ => true
  | .transcribed _ => true

/-! ## Observable events -/

/-- One `update_task` call (`app/db.py` lines 93–134): only the fields
supplied by the caller are updated. -/
structure Patch where
  status : Option String := none
  progress : Option Int := none
  result_file : Option Bool := none
  error : Option String := none
  file_size : Option Nat := none
  audio_duration : Option Nat := none
  filename : Option String := none
deriving DecidableEq

/-- An observable side effect of the pipeline: a task patch, an
attempted removal of the source audio file (`os.remove(file_path)`),
or an attempted removal of segment `i`'s artifact
(`os.remove(segment_path)`). -/
inductive Ev
  | patch (p : Patch)
  | remove_src_attempt
  | remove_seg_attempt (i : Nat)
deriving DecidableEq

/-- The events of the loop body for segment `i`
(transcriber.py lines 156–245):

* `extract_raise`: outer `except` — sentinel appended, artifact removed
  iff it exists (lines 243–245), progress update skipped;
* `extract_fail`: `continue` (line 184) — sentinel appended, **no**
  artifact removal, progress update skipped;
* `transcribe_raise`: outer `except` — sentinel appended, artifact
  removed (it exists), progress update skipped;
* `transcribed`: artifact removed (lines 231–234), then
  `update_task(task_id, progress=segment_progress)` (line 238). -/
def seg_events (initial_progress n i : Nat) (b : SegBehavior) : List Ev :=
  match b with
  | .extract_raise _ file_exists =>
      if file_exists then [.remove_seg_attempt i] else []
  | .extract_fail _ => []
  | .transcribe_raise _ => [.remove_seg_attempt i]
  | .transcribed _ =>
      [.remove_seg_attempt i,
       .patch { progress := some (segment_progress initial_progress n i) }]

/-- The value `seg_events` patches into `progress` for this segment,
if any. -/
def seg_progress_patch (initial_progress n i : Nat) (b : SegBehavior) : Option Int :=
  match b with
  | .transcribed _ => some (segment_progress initial_progress n i)
  | _ => none

/-! ## `transcribe_audio_file_streaming` (transcriber.py lines 127–255) -/

/-- The outcome of one run of `transcribe_audio_file_streaming`:
its event trace and the returned transcript.  The function never
raises: every per-segment exception is caught inside the loop, and
`get_audio_duration` catches its own failures (returning 0). -/
structure RunResult where
  events : List Ev
  transcript : String
deriving DecidableEq

/-- `transcribe_audio_file_streaming(file_path, filename, task_id,
initial_progress)` with the probed duration and the per-segment
environment behaviour as parameters:

1. duration substitution (lines 139–140) and
   `update_task(task_id, audio_duration=...)` (line 142);
2. `num_segments` (lines 144–146) loop iterations, each contributing
   `seg_events` and one `full_text` entry;
3. `return "\n\n".join(full_text)` (line 247);
4. `finally:` attempted `os.remove(file_path)` (lines 249–255). -/
def transcribe_audio_file_streaming (probed_duration initial_progress : Nat)
    (seg : Nat → SegBehavior) : RunResult :=
  let duration_seconds := effective_duration probed_duration
  let n := num_segments duration_seconds SEGMENT_DURATION
  { events :=
      Ev.patch { audio_duration := some duration_seconds } ::
        ((List.range n).flatMap (fun i => seg_events initial_progress n i (seg i)) ++
          [Ev.remove_src_attempt])
    transcript :=
      String.intercalate "\n\n" ((List.range n).map fun i => seg_text i (seg i)) }

/-! ## Summarization and the full file pipeline -/

/-- `SessionManager._create_session` retry strategy for the Grok
summarization API: `Retry(total=3, backoff_factor=1, ...)`
(transcriber.py lines 64–69).  This session is used only by
`summarize_with_grok`; the Gemini transcription calls do not go
through it. -/
def session_retry_total : Nat := 3

/-- `backoff_factor=1` of the same `Retry` strategy. -/
def session_backoff_factor : Nat := 1

/-- The `(summary_text, error)` pair returned by `summarize_with_grok`
(transcriber.py lines 261–337): the summary and `""` on success, and
`("", error)` on any HTTP error, unexpected response structure or other
exception — the function catches everything and never raises. -/
def grok_summary (outcome : Except String String) : String × String :=
  match outcome with
  | .ok s => (s, "")
  | .error e => ("", e)

/-- The events of `summarize_with_grok`: it patches `progress=95`
before issuing the request (transcriber.py line 303) and patches
nothing else — in particular it never writes the Task's `error`
field. -/
def grok_events : List Ev := [Ev.patch { progress := some 95 }]

/-- The 48-character ruled separator line (an `'='` repeated 48 times,
then a newline) used by the composed result document
(STARTUP/SHUTDOWN lines 259, 261, 263, 265). -/
def rule_line : String := String.mk (List.replicate 48 '=') ++ "\n"

/-- The fixed-format composed document of `process_audio_from_file`
(STARTUP/SHUTDOWN lines 258–267): ruled separator, summary section
header, separator, the summary text (possibly empty), blank line,
separator, transcript section header, separator, the transcript. -/
def compose_result (summary transcript : String) : String :=
  rule_line ++
  ("AI 演講內容總結:\n" ++
  (rule_line ++
  (summary ++ ("\n\n" ++
  (rule_line ++
  ("完整轉錄文字稿:\n" ++
  (rule_line ++
  transcript)))))))

/-- Outcome of the result-file write (`aiofiles.open(...).write`). -/
inductive WriteOutcome
  | ok
  | fail (msg : String)
deriving DecidableEq

/-- The outcome of one run of `process_audio_from_file`: its event
trace and the result document written to disk (`none` if the write
failed). -/
structure PipelineResult where
  events : List Ev
  written : Option String
deriving DecidableEq

/-- `process_audio_from_file(file_path, filename, summarize, task_id,
initial_progress)` (STARTUP/SHUTDOWN lines 236–287):

* run `transcribe_audio_file_streaming` (which cannot raise in this
  model — all its failure modes are internal);
* if `summarize`, call `summarize_with_gemini` (now the Grok wrapper);
  note the returned `info` error detail is discarded — it is bound but
  never passed to `update_task`;
* compose the result document (summary section even when the summary
  text is empty) or use the raw transcript;
* write the result file; on success patch
  `status='done', progress=100, result_file=...` (line 275); any
  exception instead patches `status='error', progress=100, error=str(e)`
  (line 280);
* `finally:` attempted `os.remove(file_path)` (lines 282–287). -/
def process_audio_from_file (probed_duration initial_progress : Nat)
    (seg : Nat → SegBehavior) (summarize : Bool)
    (summary_outcome : Except String String) (write : WriteOutcome) : PipelineResult :=
  let t := transcribe_audio_file_streaming probed_duration initial_progress seg
  let summ_events := if summarize then grok_events else []
  let result :=
    if summarize then compose_result (grok_summary summary_outcome).1 t.transcript
    else t.transcript
  match write with
  | .ok =>
      { events := t.events ++ summ_events ++
          [Ev.patch { status := some "done", progress := some 100, result_file := some true },
           Ev.remove_src_attempt]
        written := some result }
  | .fail msg =>
      { events := t.events ++ summ_events ++
          [Ev.patch { status := some "error", progress := some 100, error := some msg },
           Ev.remove_src_attempt]
        written := none }

/-- `process_youtube_url(url, summarize, task_id)` (STARTUP/SHUTDOWN
lines 203–234):

* patch `status='downloading', progress=5`;
* if the download raises: patch `status='error', progress=0,
  error=str(e)` (line 226) — `temp_path` is still `None`, so the
  `finally` removes nothing;
* otherwise patch `status='processing', progress=10, file_size,
  audio_duration, filename` (lines 213–220) and run
  `process_audio_from_file` with `initial_progress=10`
  (`process_audio_from_file` catches all its own failures, so the
  `except` of `process_youtube_url` is unreachable after a successful
  download; its `finally` re-checks `os.path.exists`, which the inner
  `finally` blocks have already handled). -/
def process_youtube_url (download : Except String (String × Nat × Nat))
    (probed_duration : Nat) (seg : Nat → SegBehavior) (summarize : Bool)
    (summary_outcome : Except String String) (write : WriteOutcome) : PipelineResult :=
  match download with
  | .error e =>
      { events := [Ev.patch { status := some "downloading", progress := some 5 },
                   Ev.patch { status := some "error", progress := some 0, error := some e }]
        written := none }
  | .ok (title, duration, size) =>
      let p := process_audio_from_file probed_duration 10 seg summarize summary_outcome write
      { events := Ev.patch { status := some "downloading", progress := some 5 } ::
          Ev.patch { status := some "processing", progress := some 10,
                     file_size := some size, audio_duration := some duration,
                     filename := some title } :: p.events
        written := p.written }

/-! ## Observed task states -/

/-- The observable slice of a `Task` row (`app/db.py` lines 9–22)
touched by the pipelines. -/
structure TaskState where
  status : String
  progress : Int
  error : Option String
  has_result : Bool
deriving DecidableEq

/-- A task is created `('pending', 0, ...)` (`app/db.py` line 87). -/
def initial_task_state : TaskState :=
  { status := "pending", progress := 0, error := none, has_result := false }

/-- `update_task` semantics (`app/db.py` lines 104–134): only supplied
fields change. -/
def apply_patch (s : TaskState) (p : Patch) : TaskState :=
  { status := p.status.getD s.status
    progress := p.progress.getD s.progress
    error := match p.error with
      | some e => some e
      | none => s.error
    has_result := (p.result_file.map (fun _ => true)).getD s.has_result }

/-- The `update_task` calls of an event trace, in order. -/
def patches (evs : List Ev) : List Patch :=
  evs.filterMap fun e =>
    match e with
    | .patch p => some p
    | _ => none

/-- The sequence of task states an observer polling `/status` can see:
the initial state followed by the state after each patch. -/
def observed_states (evs : List Ev) : List TaskState :=
  (patches evs).scanl apply_patch initial_task_state

/-- The observed `progress` values, in order. -/
def progress_trace (evs : List Ev) : List Int :=
  (observed_states evs).map (·.progress)

/-- The `progress` values explicitly supplied by patches, in order. -/
def progress_patches (evs : List Ev) : List Int :=
  (patches evs).filterMap (·.progress)

/-- The task state after the whole trace. -/
def final_state (evs : List Ev) : TaskState :=
  (patches evs).foldl apply_patch initial_task_state

/-! ## Retention cleanup (`app/db.py` lines 161–174) -/

/-- A row of the `tasks` table, reduced to the fields `cleanup_old_tasks`
can observe: its creation time and its linked result artifact. -/
structure TaskRow where
  id : Nat
  created_at : Int
  result_file : Option Nat
deriving DecidableEq

/-- The persistent state the retention pass acts on: the task rows and
the result artifacts on disk (`RESULTS_DIR` files, keyed here by id). -/
structure StoreState where
  tasks : List TaskRow
  artifacts : List Nat
deriving DecidableEq

/-- `cleanup_old_tasks(days_old)` (`app/db.py` lines 161–174): a single
`DELETE FROM tasks WHERE created_at < datetime('now', '-N days')`
followed by `VACUUM`.  The function performs no file operation — the
artifacts on disk are untouched — and returns `None` (the deleted count
is only printed). -/
def cleanup_old_tasks (cutoff : Int) (st : StoreState) : StoreState × Option Nat :=
  ({ tasks := st.tasks.filter fun t => ! decide (t.created_at < cutoff)
     artifacts := st.artifacts },
   none)

/-! ## Concrete environments used by witnesses and counterexamples -/

/-- A two-segment environment whose first segment fails extraction and
whose second transcribes successfully. -/
def wit_seg : Nat → SegBehavior :=
  fun i => if i = 0 then .extract_fail true else .transcribed "second segment text"

/-- An environment where every segment fails extraction without leaving
a file (no progress patches at all). -/
def fail_seg : Nat → SegBehavior :=
  fun _ => .extract_fail false

/-- An environment where every segment transcribes successfully. -/
def ok_seg : Nat → SegBehavior :=
  fun _ => .transcribed "hello"

/-- A store with one expired task whose linked artifact `7` is on
disk. -/
def wit_store : StoreState :=
  { tasks := [{ id := 1, created_at := 0, result_file := some 7 }], artifacts := [7] }

/-! ## Segmentation lemmas -/

theorem le_of_mod_eq_zero (D L : Nat) (hD : 0 < D) (h : D % L = 0) : L ≤ D := by
  by_contra hc
  push_neg at hc
  have hme := Nat.mod_eq_of_lt hc
  omega

theorem num_segments_pos (D L : Nat) (hD : 0 < D) (hL : 0 < L) :
    0 < num_segments D L := by
  by_cases h : D % L = 0
  · have hn : num_segments D L = D / L := by simp [num_segments, h]
    rw [hn]
    exact Nat.div_pos (le_of_mod_eq_zero D L hD h) hL
  · have hn : num_segments D L = D / L + 1 := by simp [num_segments, h]
    rw [hn]
    exact Nat.succ_pos _

theorem num_segments_bounds (D L : Nat) (hD : 0 < D) (hL : 0 < L) :
    (num_segments D L - 1) * L < D ∧ D ≤ num_segments D L * L := by
  have hdm := Nat.div_add_mod D L
  have hmod : D % L < L := Nat.mod_lt _ hL
  by_cases h : D % L = 0
  · have hn : num_segments D L = D / L := by simp [num_segments, h]
    have hq : 0 < D / L := Nat.div_pos (le_of_mod_eq_zero D L hD h) hL
    rw [hn]
    generalize hgen : D / L = q at hdm hq ⊢
    rw [h] at hdm
    have e1 : (q - 1) * L + L = q * L := by
      have h2 : q - 1 + 1 = q := by omega
      calc (q - 1) * L + L = (q - 1 + 1) * L := by ring
        _ = q * L := by rw [h2]
    have e2 : q * L = L * q := Nat.mul_comm _ _
    omega
  · have hn : num_segments D L = D / L + 1 := by simp [num_segments, h]
    rw [hn]
    generalize hgen : D / L = q at hdm ⊢
    generalize hgen2 : D % L = r at hdm hmod h
    have e1 : (q + 1 - 1) * L = L * q := by
      have h2 : q + 1 - 1 = q := by omega
      rw [h2]
      exact Nat.mul_comm _ _
    have e2 : (q + 1) * L = L * q + L := by ring
    omega

theorem num_segments_eq_ceil (D L : Nat) (hD : 0 < D) (hL : 0 < L) :
    num_segments D L = (D + L - 1) / L := by
  obtain ⟨h1, h2⟩ := num_segments_bounds D L hD hL
  have hn : 0 < num_segments D L := num_segments_pos D L hD hL
  have e1 : (num_segments D L - 1) * L + L = num_segments D L * L := by
    have h3 : num_segments D L - 1 + 1 = num_segments D L := by omega
    calc (num_segments D L - 1) * L + L = (num_segments D L - 1 + 1) * L := by ring
      _ = num_segments D L * L := by rw [h3]
  have e2 : (num_segments D L + 1) * L = num_segments D L * L + L := by ring
  have lo : num_segments D L * L ≤ D + L - 1 := by omega
  have hi : D + L - 1 < (num_segments D L + 1) * L := by omega
  exact (Nat.div_eq_of_lt_le lo hi).symm

theorem segment_count_pos (probed : Nat) : 0 < segment_count probed := by
  unfold segment_count effective_duration
  by_cases h : probed = 0
  · rw [if_pos h]
    exact num_segments_pos _ _ (by decide) (by decide)
  · rw [if_neg h]
    exact num_segments_pos _ _ (Nat.pos_of_ne_zero h) (by decide)

/-- C2: for every `D > 0` and `L > 0`, the loop runs `ceil(D/L)` times,
window `i` is `[i·L, min((i+1)·L, D))`, adjacent windows abut, the
first starts at 0, the last ends at `D`, every window is nonempty, a
non-final window has length exactly `L` and every window has length at
most `L`. -/
theorem segmentation_tiles (D L : Nat) (hD : 0 < D) (hL : 0 < L) :
    num_segments D L = (D + L - 1) / L ∧
    seg_start L 0 = 0 ∧
    (∀ i, i + 1 < num_segments D L → seg_end D L i = seg_start L (i + 1)) ∧
    seg_end D L (num_segments D L - 1) = D ∧
    (∀ i, i < num_segments D L → seg_start L i < seg_end D L i) ∧
    (∀ i, i + 1 < num_segments D L → seg_end D L i - seg_start L i = L) ∧
    (∀ i, i < num_segments D L → seg_end D L i - seg_start L i ≤ L) := by
  obtain ⟨hlt, hle⟩ := num_segments_bounds D L hD hL
  have hn : 0 < num_segments D L := num_segments_pos D L hD hL
  have key : ∀ i, i + 1 < num_segments D L → (i + 1) * L ≤ D := by
    intro i hi
    have h1 : i + 1 ≤ num_segments D L - 1 := by omega
    have h2 : (i + 1) * L ≤ (num_segments D L - 1) * L :=
      Nat.mul_le_mul_right L h1
    omega
  have keylt : ∀ i, i < num_segments D L → i * L < D := by
    intro i hi
    have h1 : i ≤ num_segments D L - 1 := by omega
    have h2 : i * L ≤ (num_segments D L - 1) * L := Nat.mul_le_mul_right L h1
    omega
  refine ⟨num_segments_eq_ceil D L hD hL, by simp [seg_start], ?_, ?_, ?_, ?_, ?_⟩
  · intro i hi
    have := key i hi
    simp [seg_end, seg_start, Nat.min_eq_left this]
  · have h1 : num_segments D L - 1 + 1 = num_segments D L := by omega
    simp only [seg_end, h1]
    exact Nat.min_eq_right hle
  · intro i hi
    have h1 : i * L < (i + 1) * L := by
      have : i * L + L = (i + 1) * L := by ring
      omega
    have h2 := keylt i hi
    simp only [seg_start, seg_end]
    omega
  · intro i hi
    have := key i hi
    simp only [seg_end, seg_start, Nat.min_eq_left this]
    have : i * L + L = (i + 1) * L := by ring
    omega
  · intro i hi
    simp only [seg_end, seg_start]
    have h1 : min ((i + 1) * L) D ≤ (i + 1) * L := Nat.min_le_left _ _
    have : i * L + L = (i + 1) * L := by ring
    omega

/-- Witness for C2 at the spec's own example `D = 660`, `L = 300`
(three windows `[0,300) [300,600) [600,660)`). -/
theorem segmentation_tiles_witness :
    (0 < 660 ∧ 0 < 300) ∧
    (num_segments 660 300 = (660 + 300 - 1) / 300 ∧
      seg_start 300 0 = 0 ∧
      (∀ i, i + 1 < num_segments 660 300 → seg_end 660 300 i = seg_start 300 (i + 1)) ∧
      seg_end 660 300 (num_segments 660 300 - 1) = 660 ∧
      (∀ i, i < num_segments 660 300 → seg_start 300 i < seg_end 660 300 i) ∧
      (∀ i, i + 1 < num_segments 660 300 → seg_end 660 300 i - seg_start 300 i = 300) ∧
      (∀ i, i < num_segments 660 300 → seg_end 660 300 i - seg_start 300 i ≤ 300)) :=
  ⟨⟨by decide, by decide⟩, segmentation_tiles 660 300 (by decide) (by decide)⟩

/-! ## Rounding lemmas

Facts about `round_half_even` and the binary64 rounding `fl`:
exactness on small integers, nonnegativity, monotonicity (correct
rounding is weakly monotone), and an evaluation rule used to compute
`fl` at concrete rationals. -/

theorem rhe_intCast (z : Int) : round_half_even (z : ℚ) = z := by
  unfold round_half_even
  rw [Int.floor_intCast]
  rw [if_pos]
  norm_num

theorem rhe_ge_floor (x : ℚ) : ⌊x⌋ ≤ round_half_even x := by
  unfold round_half_even
  split_ifs <;> omega

theorem rhe_le_floor_add_one (x : ℚ) : round_half_even x ≤ ⌊x⌋ + 1 := by
  unfold round_half_even
  split_ifs <;> omega

theorem rhe_mono {x y : ℚ} (h : x ≤ y) :
    round_half_even x ≤ round_half_even y := by
  rcases lt_or_ge ⌊x⌋ ⌊y⌋ with hf | hf
  · have h1 := rhe_le_floor_add_one x
    have h2 := rhe_ge_floor y
    omega
  · have hfe : ⌊x⌋ = ⌊y⌋ := le_antisymm (Int.floor_mono h) hf
    unfold round_half_even
    rw [← hfe]
    split_ifs <;> first | omega | linarith

theorem rhe_eq_down (x : ℚ) (f : Int) (h1 : (f : ℚ) ≤ x)
    (h2 : x < (f : ℚ) + 1/2) : round_half_even x = f := by
  have hf : ⌊x⌋ = f := by
    rw [Int.floor_eq_iff]
    exact ⟨h1, by linarith⟩
  unfold round_half_even
  rw [hf, if_pos (by linarith)]

theorem two_cast_q : ((2 : Nat) : ℚ) = (2 : ℚ) := by norm_num

theorem fl_zero : fl 0 = 0 := by
  unfold fl
  rw [if_pos rfl]

theorem fl_pos_eq (x : ℚ) (hx : 0 < x) :
    fl x = (round_half_even (x / 2 ^ (Int.log 2 x - 52)) : ℚ)
      * 2 ^ (Int.log 2 x - 52) := by
  unfold fl
  rw [if_neg (ne_of_gt hx), if_pos hx]

theorem scaled_lo (x : ℚ) (hx : 0 < x) :
    (2 : ℚ) ^ (52 : Int) ≤ x / 2 ^ (Int.log 2 x - 52) := by
  have h1 : ((2 : Nat) : ℚ) ^ Int.log 2 x ≤ x := Int.zpow_log_le_self (by norm_num) hx
  rw [two_cast_q] at h1
  have hp : (0 : ℚ) < 2 ^ (Int.log 2 x - 52) := by positivity
  rw [le_div_iff₀ hp, ← zpow_add₀ (by norm_num : (2:ℚ) ≠ 0)]
  have h2 : (52 : Int) + (Int.log 2 x - 52) = Int.log 2 x := by ring
  rw [h2]
  exact h1

theorem scaled_hi (x : ℚ) (_hx : 0 < x) :
    x / 2 ^ (Int.log 2 x - 52) < (2 : ℚ) ^ (53 : Int) := by
  have h2 : x < ((2 : Nat) : ℚ) ^ (Int.log 2 x + 1) :=
    Int.lt_zpow_succ_log_self (by norm_num) x
  rw [two_cast_q] at h2
  have hp : (0 : ℚ) < 2 ^ (Int.log 2 x - 52) := by positivity
  rw [div_lt_iff₀ hp, ← zpow_add₀ (by norm_num : (2:ℚ) ≠ 0)]
  have h3 : (53 : Int) + (Int.log 2 x - 52) = Int.log 2 x + 1 := by ring
  rw [h3]
  exact h2

theorem fl_nonneg (x : ℚ) (hx : 0 ≤ x) : 0 ≤ fl x := by
  rcases eq_or_lt_of_le hx with h | h
  · rw [← h, fl_zero]
  · rw [fl_pos_eq x h]
    have h1 : (0 : Int) ≤ round_half_even (x / 2 ^ (Int.log 2 x - 52)) := by
      have h2 := rhe_ge_floor (x / 2 ^ (Int.log 2 x - 52))
      have h3 : (0 : Int) ≤ ⌊x / 2 ^ (Int.log 2 x - 52)⌋ := by
        apply Int.floor_nonneg.mpr
        positivity
      omega
    have h4 : (0 : ℚ) < 2 ^ (Int.log 2 x - 52) := by positivity
    positivity

theorem fl_le_zpow_succ (x : ℚ) (hx : 0 < x) :
    fl x ≤ (2 : ℚ) ^ (Int.log 2 x + 1) := by
  rw [fl_pos_eq x hx]
  have h1 := rhe_le_floor_add_one (x / 2 ^ (Int.log 2 x - 52))
  have h2 := scaled_hi x hx
  have h3 : ⌊x / 2 ^ (Int.log 2 x - 52)⌋ < 2 ^ 53 := by
    have h4 : (⌊x / 2 ^ (Int.log 2 x - 52)⌋ : ℚ) ≤ x / 2 ^ (Int.log 2 x - 52) :=
      Int.floor_le _
    have h5 : ((2 : ℚ) ^ (53 : Int)) = (((2 : Int) ^ (53 : Nat) : Int) : ℚ) := by
      norm_num
    have h6 : (⌊x / 2 ^ (Int.log 2 x - 52)⌋ : ℚ) < (((2 : Int) ^ (53 : Nat) : Int) : ℚ) := by
      rw [← h5]
      linarith
    exact_mod_cast h6
  have h7 : round_half_even (x / 2 ^ (Int.log 2 x - 52)) ≤ 2 ^ 53 := by omega
  have h8 : ((round_half_even (x / 2 ^ (Int.log 2 x - 52)) : Int) : ℚ)
      ≤ ((2 : ℚ) ^ (53 : Int)) := by
    have h9 : ((2 : ℚ) ^ (53 : Int)) = (((2 : Int) ^ (53 : Nat) : Int) : ℚ) := by
      norm_num
    rw [h9]
    exact_mod_cast h7
  have hp : (0 : ℚ) < 2 ^ (Int.log 2 x - 52) := by positivity
  calc (round_half_even (x / 2 ^ (Int.log 2 x - 52)) : ℚ) * 2 ^ (Int.log 2 x - 52)
      ≤ (2 : ℚ) ^ (53 : Int) * 2 ^ (Int.log 2 x - 52) :=
        mul_le_mul_of_nonneg_right h8 (le_of_lt hp)
    _ = (2 : ℚ) ^ (Int.log 2 x + 1) := by
        rw [← zpow_add₀ (by norm_num : (2:ℚ) ≠ 0)]
        congr 1
        ring

theorem zpow_le_fl (x : ℚ) (hx : 0 < x) :
    (2 : ℚ) ^ (Int.log 2 x) ≤ fl x := by
  rw [fl_pos_eq x hx]
  have h1 := rhe_ge_floor (x / 2 ^ (Int.log 2 x - 52))
  have h2 := scaled_lo x hx
  have h3 : (2 : Int) ^ (52 : Nat) ≤ ⌊x / 2 ^ (Int.log 2 x - 52)⌋ := by
    apply Int.le_floor.mpr
    have h5 : ((2 : ℚ) ^ (52 : Int)) = (((2 : Int) ^ (52 : Nat) : Int) : ℚ) := by
      norm_num
    rw [← h5]
    exact h2
  have h7 : (2 : Int) ^ (52 : Nat) ≤ round_half_even (x / 2 ^ (Int.log 2 x - 52)) := by
    omega
  have h8 : ((2 : ℚ) ^ (52 : Int))
      ≤ ((round_half_even (x / 2 ^ (Int.log 2 x - 52)) : Int) : ℚ) := by
    have h9 : ((2 : ℚ) ^ (52 : Int)) = (((2 : Int) ^ (52 : Nat) : Int) : ℚ) := by
      norm_num
    rw [h9]
    exact_mod_cast h7
  have hp : (0 : ℚ) < 2 ^ (Int.log 2 x - 52) := by positivity
  calc (2 : ℚ) ^ (Int.log 2 x)
      = (2 : ℚ) ^ (52 : Int) * 2 ^ (Int.log 2 x - 52) := by
        rw [← zpow_add₀ (by norm_num : (2:ℚ) ≠ 0)]
        congr 1
        ring
    _ ≤ (round_half_even (x / 2 ^ (Int.log 2 x - 52)) : ℚ) * 2 ^ (Int.log 2 x - 52) :=
        mul_le_mul_of_nonneg_right h8 (le_of_lt hp)

theorem fl_mono_nonneg {x y : ℚ} (hx : 0 ≤ x) (h : x ≤ y) : fl x ≤ fl y := by
  rcases eq_or_lt_of_le hx with h0 | h0
  · rw [← h0, fl_zero]
    exact fl_nonneg y (le_trans hx h)
  · have hy : 0 < y := lt_of_lt_of_le h0 h
    have hlog : Int.log 2 x ≤ Int.log 2 y := Int.log_mono_right h0 h
    rcases eq_or_lt_of_le hlog with he | he
    · rw [fl_pos_eq x h0, fl_pos_eq y hy, ← he]
      have hp : (0 : ℚ) < 2 ^ (Int.log 2 x - 52) := by positivity
      apply mul_le_mul_of_nonneg_right _ (le_of_lt hp)
      have hd : x / 2 ^ (Int.log 2 x - 52) ≤ y / 2 ^ (Int.log 2 x - 52) := by gcongr
      exact_mod_cast rhe_mono hd
    · calc fl x ≤ (2 : ℚ) ^ (Int.log 2 x + 1) := fl_le_zpow_succ x h0
        _ ≤ (2 : ℚ) ^ (Int.log 2 y) := by
            apply zpow_le_zpow_right₀ (by norm_num)
            omega
        _ ≤ fl y := zpow_le_fl y hy

theorem fl_intCast_small (z : Int) (h0 : 0 ≤ z) (h : z ≤ 2 ^ 52) : fl (z : ℚ) = z := by
  rcases eq_or_lt_of_le h0 with h1 | h1
  · rw [← h1]
    exact_mod_cast fl_zero
  · have hzq : (0 : ℚ) < (z : ℚ) := by exact_mod_cast h1
    have hk : Int.log 2 (z : ℚ) ≤ 52 := by
      have h2 : (z : ℚ) ≤ ((2 : Nat) : ℚ) ^ (52 : Int) := by
        rw [two_cast_q]
        have h3 : ((2 : ℚ) ^ (52 : Int)) = (((2 : Int) ^ (52 : Nat) : Int) : ℚ) := by
          norm_num
        rw [h3]
        exact_mod_cast h
      calc Int.log 2 (z : ℚ) ≤ Int.log 2 (((2 : Nat) : ℚ) ^ (52 : Int)) :=
            Int.log_mono_right hzq h2
        _ = 52 := Int.log_zpow (by norm_num) 52
    set k := Int.log 2 (z : ℚ) with hkdef
    have hpow : (2 : ℚ) ^ ((52 : Int) - k) = ((2 : ℚ)) ^ ((52 - k).toNat : Nat) := by
      rw [← zpow_natCast]
      congr 1
      omega
    have harg : (z : ℚ) / 2 ^ (k - 52) = ((z * 2 ^ (52 - k).toNat : Int) : ℚ) := by
      rw [div_eq_mul_inv, ← zpow_neg]
      have h4 : -(k - 52) = 52 - k := by ring
      rw [h4, hpow]
      push_cast
      ring
    rw [fl_pos_eq _ hzq, ← hkdef, harg, rhe_intCast]
    have h5 : (((z * 2 ^ (52 - k).toNat : Int)) : ℚ) = (z : ℚ) * 2 ^ ((52 : Int) - k) := by
      rw [hpow]
      push_cast
      ring
    rw [h5, mul_assoc, ← zpow_add₀ (by norm_num : (2:ℚ) ≠ 0)]
    have h6 : (52 : Int) - k + (k - 52) = 0 := by ring
    rw [h6]
    norm_num

theorem int_log_eq (x : ℚ) (k : Int) (hx : 0 < x) (hlo : (2 : ℚ) ^ k ≤ x)
    (hhi : x < (2 : ℚ) ^ (k + 1)) : Int.log 2 x = k := by
  have h1 : k ≤ Int.log 2 x := by
    rw [← Int.zpow_le_iff_le_log (by norm_num : 1 < 2) hx, two_cast_q]
    exact hlo
  have h2 : Int.log 2 x < k + 1 := by
    rw [← Int.lt_zpow_iff_log_lt (by norm_num : 1 < 2) hx, two_cast_q]
    exact hhi
  omega

theorem fl_eval (x : ℚ) (k m : Int) (hx : 0 < x)
    (hlo : (2 : ℚ) ^ k ≤ x) (hhi : x < (2 : ℚ) ^ (k + 1))
    (hm : round_half_even (x / 2 ^ (k - 52)) = m) :
    fl x = (m : ℚ) * 2 ^ (k - 52) := by
  rw [fl_pos_eq x hx, int_log_eq x k hx hlo hhi, hm]

theorem fl_one : fl (1 : ℚ) = 1 := by
  have h := fl_intCast_small 1 (by norm_num) (by norm_num)
  simpa using h

theorem fl_natCast_small (z : Nat) (h : z ≤ 90) : fl (z : ℚ) = z := by
  have h1 := fl_intCast_small (z : Int) (Int.ofNat_nonneg z) (by omega)
  have h2 : (((z : Int)) : ℚ) = (z : ℚ) := by push_cast; ring
  rw [h2] at h1
  exact_mod_cast h1

theorem sub_cast_90 (ip : Nat) (h90 : ip ≤ 90) :
    (90 : ℚ) - (ip : ℚ) = ((90 - ip : Nat) : ℚ) := by
  rw [Nat.cast_sub h90]
  norm_num

/-! ## Progress formula lemmas -/

theorem segment_progress_ge (ip n i : Nat) (h90 : ip ≤ 90) :
    (ip : Int) ≤ segment_progress ip n i := by
  have hR : (0 : ℚ) ≤ (90 : ℚ) - (ip : ℚ) := by
    have h : (ip : ℚ) ≤ 90 := by exact_mod_cast h90
    linarith
  have hq0 : (0 : ℚ) ≤ ((i : ℚ) + 1) / (n : ℚ) := by positivity
  have hflq : (0 : ℚ) ≤ fl (((i : ℚ) + 1) / (n : ℚ)) := fl_nonneg _ hq0
  have hprod : (0 : ℚ) ≤ fl (fl (((i : ℚ) + 1) / (n : ℚ)) * ((90 : ℚ) - (ip : ℚ))) :=
    fl_nonneg _ (mul_nonneg hflq hR)
  have hip : fl ((ip : ℚ)) = (ip : ℚ) := fl_natCast_small ip h90
  have hs : (ip : ℚ) ≤ fl ((ip : ℚ)
      + fl (fl (((i : ℚ) + 1) / (n : ℚ)) * ((90 : ℚ) - (ip : ℚ)))) := by
    calc (ip : ℚ) = fl ((ip : ℚ)) := hip.symm
      _ ≤ _ := fl_mono_nonneg (by positivity) (by linarith)
  have hs0 : (0 : ℚ) ≤ fl ((ip : ℚ)
      + fl (fl (((i : ℚ) + 1) / (n : ℚ)) * ((90 : ℚ) - (ip : ℚ)))) := by
    have h : (0 : ℚ) ≤ (ip : ℚ) := by positivity
    linarith
  unfold segment_progress py_trunc
  rw [if_pos hs0]
  apply Int.le_floor.mpr
  push_cast
  exact hs

theorem segment_progress_le_90 (ip n i : Nat) (h90 : ip ≤ 90) (hn : 0 < n)
    (hi : i < n) : segment_progress ip n i ≤ 90 := by
  have hR : (0 : ℚ) ≤ (90 : ℚ) - (ip : ℚ) := by
    have h : (ip : ℚ) ≤ 90 := by exact_mod_cast h90
    linarith
  have hq0 : (0 : ℚ) ≤ ((i : ℚ) + 1) / (n : ℚ) := by positivity
  have hq1 : ((i : ℚ) + 1) / (n : ℚ) ≤ 1 := by
    rw [div_le_one (by exact_mod_cast hn)]
    exact_mod_cast hi
  have hflq1 : fl (((i : ℚ) + 1) / (n : ℚ)) ≤ 1 := by
    calc fl (((i : ℚ) + 1) / (n : ℚ)) ≤ fl 1 := fl_mono_nonneg hq0 hq1
      _ = 1 := fl_one
  have hflq0 : (0 : ℚ) ≤ fl (((i : ℚ) + 1) / (n : ℚ)) := fl_nonneg _ hq0
  have hmul : fl (((i : ℚ) + 1) / (n : ℚ)) * ((90 : ℚ) - (ip : ℚ))
      ≤ (90 : ℚ) - (ip : ℚ) := by
    calc fl (((i : ℚ) + 1) / (n : ℚ)) * ((90 : ℚ) - (ip : ℚ))
        ≤ 1 * ((90 : ℚ) - (ip : ℚ)) := mul_le_mul_of_nonneg_right hflq1 hR
      _ = (90 : ℚ) - (ip : ℚ) := one_mul _
  have hflR : fl ((90 : ℚ) - (ip : ℚ)) = (90 : ℚ) - (ip : ℚ) := by
    rw [sub_cast_90 ip h90]
    exact fl_natCast_small _ (by omega)
  have hprodle : fl (fl (((i : ℚ) + 1) / (n : ℚ)) * ((90 : ℚ) - (ip : ℚ)))
      ≤ (90 : ℚ) - (ip : ℚ) := by
    calc fl (fl (((i : ℚ) + 1) / (n : ℚ)) * ((90 : ℚ) - (ip : ℚ)))
        ≤ fl ((90 : ℚ) - (ip : ℚ)) := fl_mono_nonneg (mul_nonneg hflq0 hR) hmul
      _ = (90 : ℚ) - (ip : ℚ) := hflR
  have hprod0 : (0 : ℚ) ≤ fl (fl (((i : ℚ) + 1) / (n : ℚ)) * ((90 : ℚ) - (ip : ℚ))) :=
    fl_nonneg _ (mul_nonneg hflq0 hR)
  have h90fl : fl (90 : ℚ) = 90 := by
    have h := fl_natCast_small 90 (le_refl _)
    simpa using h
  have hsle : fl ((ip : ℚ)
      + fl (fl (((i : ℚ) + 1) / (n : ℚ)) * ((90 : ℚ) - (ip : ℚ)))) ≤ 90 := by
    calc fl ((ip : ℚ)
        + fl (fl (((i : ℚ) + 1) / (n : ℚ)) * ((90 : ℚ) - (ip : ℚ))))
        ≤ fl (90 : ℚ) := fl_mono_nonneg (by positivity) (by linarith)
      _ = 90 := h90fl
  have hs0 : (0 : ℚ) ≤ fl ((ip : ℚ)
      + fl (fl (((i : ℚ) + 1) / (n : ℚ)) * ((90 : ℚ) - (ip : ℚ)))) :=
    fl_nonneg _ (by positivity)
  unfold segment_progress py_trunc
  rw [if_pos hs0]
  have h91 : (⌊fl ((ip : ℚ)
      + fl (fl (((i : ℚ) + 1) / (n : ℚ)) * ((90 : ℚ) - (ip : ℚ))))⌋ : ℚ) ≤ 90 := by
    calc (⌊fl ((ip : ℚ)
        + fl (fl (((i : ℚ) + 1) / (n : ℚ)) * ((90 : ℚ) - (ip : ℚ))))⌋ : ℚ)
        ≤ fl ((ip : ℚ)
          + fl (fl (((i : ℚ) + 1) / (n : ℚ)) * ((90 : ℚ) - (ip : ℚ)))) := Int.floor_le _
      _ ≤ 90 := hsle
  exact_mod_cast h91

theorem segment_progress_last (ip n i : Nat) (h90 : ip ≤ 90) (hn : 0 < n)
    (hl : i + 1 = n) : segment_progress ip n i = 90 := by
  have hq : ((i : ℚ) + 1) / (n : ℚ) = 1 := by
    have h1 : ((i : ℚ) + 1) = (n : ℚ) := by exact_mod_cast congrArg (Nat.cast : Nat → ℚ) hl
    rw [h1]
    exact div_self (by exact_mod_cast Nat.pos_iff_ne_zero.mp hn)
  have hflR : fl ((90 : ℚ) - (ip : ℚ)) = (90 : ℚ) - (ip : ℚ) := by
    rw [sub_cast_90 ip h90]
    exact fl_natCast_small _ (by omega)
  have h90fl : fl (90 : ℚ) = 90 := by
    have h := fl_natCast_small 90 (le_refl _)
    simpa using h
  unfold segment_progress
  rw [hq, fl_one, one_mul, hflR]
  have h2 : (ip : ℚ) + ((90 : ℚ) - (ip : ℚ)) = 90 := by ring
  rw [h2, h90fl]
  unfold py_trunc
  rw [if_pos (by norm_num)]
  rw [show ((90 : ℚ)) = (((90 : Int)) : ℚ) from by norm_num, Int.floor_intCast]

theorem segment_progress_mono (ip n : Nat) (h90 : ip ≤ 90) {i j : Nat} (hij : i ≤ j) :
    segment_progress ip n i ≤ segment_progress ip n j := by
  by_cases hn0 : n = 0
  · subst hn0
    simp [segment_progress, div_zero]
  · have hn : (0 : ℚ) < (n : ℚ) := by
      exact_mod_cast Nat.pos_of_ne_zero hn0
    have hR : (0 : ℚ) ≤ (90 : ℚ) - (ip : ℚ) := by
      have h : (ip : ℚ) ≤ 90 := by exact_mod_cast h90
      linarith
    have hq0 : (0 : ℚ) ≤ ((i : ℚ) + 1) / (n : ℚ) := by positivity
    have hqm : ((i : ℚ) + 1) / (n : ℚ) ≤ ((j : ℚ) + 1) / (n : ℚ) := by
      have hijq : ((i : ℚ) + 1) ≤ ((j : ℚ) + 1) := by
        have h : (i : ℚ) ≤ (j : ℚ) := by exact_mod_cast hij
        linarith
      gcongr
    have h1 : fl (((i : ℚ) + 1) / (n : ℚ)) ≤ fl (((j : ℚ) + 1) / (n : ℚ)) :=
      fl_mono_nonneg hq0 hqm
    have h2 : fl (((i : ℚ) + 1) / (n : ℚ)) * ((90 : ℚ) - (ip : ℚ))
        ≤ fl (((j : ℚ) + 1) / (n : ℚ)) * ((90 : ℚ) - (ip : ℚ)) :=
      mul_le_mul_of_nonneg_right h1 hR
    have hm0 : (0 : ℚ) ≤ fl (((i : ℚ) + 1) / (n : ℚ)) * ((90 : ℚ) - (ip : ℚ)) :=
      mul_nonneg (fl_nonneg _ hq0) hR
    have h3 : fl (fl (((i : ℚ) + 1) / (n : ℚ)) * ((90 : ℚ) - (ip : ℚ)))
        ≤ fl (fl (((j : ℚ) + 1) / (n : ℚ)) * ((90 : ℚ) - (ip : ℚ))) :=
      fl_mono_nonneg hm0 h2
    have hp0 : (0 : ℚ) ≤ fl (fl (((i : ℚ) + 1) / (n : ℚ)) * ((90 : ℚ) - (ip : ℚ))) :=
      fl_nonneg _ hm0
    have hip0 : (0 : ℚ) ≤ (ip : ℚ) := by positivity
    have hp0j : (0 : ℚ) ≤ fl (fl (((j : ℚ) + 1) / (n : ℚ)) * ((90 : ℚ) - (ip : ℚ))) :=
      fl_nonneg _ (mul_nonneg (fl_nonneg _ (by positivity)) hR)
    have h4 : fl ((ip : ℚ) + fl (fl (((i : ℚ) + 1) / (n : ℚ)) * ((90 : ℚ) - (ip : ℚ))))
        ≤ fl ((ip : ℚ) + fl (fl (((j : ℚ) + 1) / (n : ℚ)) * ((90 : ℚ) - (ip : ℚ)))) :=
      fl_mono_nonneg (by linarith) (by linarith)
    have hs0i : (0 : ℚ)
        ≤ fl ((ip : ℚ) + fl (fl (((i : ℚ) + 1) / (n : ℚ)) * ((90 : ℚ) - (ip : ℚ)))) :=
      fl_nonneg _ (by linarith)
    have hs0j : (0 : ℚ)
        ≤ fl ((ip : ℚ) + fl (fl (((j : ℚ) + 1) / (n : ℚ)) * ((90 : ℚ) - (ip : ℚ)))) :=
      fl_nonneg _ (by linarith)
    unfold segment_progress py_trunc
    rw [if_pos hs0i, if_pos hs0j]
    exact Int.floor_mono h4

theorem segment_progress_10_3_0 : segment_progress 10 3 0 = 36 := by
  have f1 : fl ((1 : ℚ)/3) = (6004799503160661 : ℚ) * 2 ^ ((-2 : Int) - 52) := by
    apply fl_eval _ (-2) _ (by norm_num) (by norm_num) (by norm_num)
    rw [show ((1 : ℚ)/3) / 2 ^ ((-2 : Int) - 52) = 18014398509481984/3 from by norm_num]
    exact rhe_eq_down _ 6004799503160661 (by norm_num) (by norm_num)
  have f2 : fl ((6004799503160661 : ℚ) * 2 ^ ((-2 : Int) - 52) * 80)
      = (7505999378950826 : ℚ) * 2 ^ ((4 : Int) - 52) := by
    apply fl_eval _ 4 _ (by norm_num) (by norm_num) (by norm_num)
    rw [show ((6004799503160661 : ℚ) * 2 ^ ((-2 : Int) - 52) * 80) / 2 ^ ((4 : Int) - 52)
      = 30023997515803305/4 from by norm_num]
    exact rhe_eq_down _ 7505999378950826 (by norm_num) (by norm_num)
  have f3 : fl ((10 : ℚ) + (7505999378950826 : ℚ) * 2 ^ ((4 : Int) - 52))
      = (5160374573028693 : ℚ) * 2 ^ ((5 : Int) - 52) := by
    apply fl_eval _ 5 _ (by norm_num) (by norm_num) (by norm_num)
    rw [show ((10 : ℚ) + (7505999378950826 : ℚ) * 2 ^ ((4 : Int) - 52)) / 2 ^ ((5 : Int) - 52)
      = 5160374573028693 from by norm_num]
    exact rhe_eq_down _ 5160374573028693 (by norm_num) (by norm_num)
  unfold segment_progress
  rw [show ((((0 : Nat) : ℚ)) + 1) / (((3 : Nat)) : ℚ) = 1/3 from by norm_num]
  rw [show ((90 : ℚ) - (((10 : Nat)) : ℚ)) = 80 from by norm_num]
  rw [f1, f2]
  rw [show (((10 : Nat)) : ℚ) = (10 : ℚ) from by norm_num]
  rw [f3]
  unfold py_trunc
  rw [if_pos (by norm_num)]
  rw [Int.floor_eq_iff]
  constructor <;> norm_num

theorem segment_progress_10_3_1 : segment_progress 10 3 1 = 63 := by
  have f1 : fl ((2 : ℚ)/3) = (6004799503160661 : ℚ) * 2 ^ ((-1 : Int) - 52) := by
    apply fl_eval _ (-1) _ (by norm_num) (by norm_num) (by norm_num)
    rw [show ((2 : ℚ)/3) / 2 ^ ((-1 : Int) - 52) = 18014398509481984/3 from by norm_num]
    exact rhe_eq_down _ 6004799503160661 (by norm_num) (by norm_num)
  have f2 : fl ((6004799503160661 : ℚ) * 2 ^ ((-1 : Int) - 52) * 80)
      = (7505999378950826 : ℚ) * 2 ^ ((5 : Int) - 52) := by
    apply fl_eval _ 5 _ (by norm_num) (by norm_num) (by norm_num)
    rw [show ((6004799503160661 : ℚ) * 2 ^ ((-1 : Int) - 52) * 80) / 2 ^ ((5 : Int) - 52)
      = 30023997515803305/4 from by norm_num]
    exact rhe_eq_down _ 7505999378950826 (by norm_num) (by norm_num)
  have f3 : fl ((10 : ℚ) + (7505999378950826 : ℚ) * 2 ^ ((5 : Int) - 52))
      = (8913374262504106 : ℚ) * 2 ^ ((5 : Int) - 52) := by
    apply fl_eval _ 5 _ (by norm_num) (by norm_num) (by norm_num)
    rw [show ((10 : ℚ) + (7505999378950826 : ℚ) * 2 ^ ((5 : Int) - 52)) / 2 ^ ((5 : Int) - 52)
      = 8913374262504106 from by norm_num]
    exact rhe_eq_down _ 8913374262504106 (by norm_num) (by norm_num)
  unfold segment_progress
  rw [show ((((1 : Nat) : ℚ)) + 1) / (((3 : Nat)) : ℚ) = 2/3 from by norm_num]
  rw [show ((90 : ℚ) - (((10 : Nat)) : ℚ)) = 80 from by norm_num]
  rw [f1, f2]
  rw [show (((10 : Nat)) : ℚ) = (10 : ℚ) from by norm_num]
  rw [f3]
  unfold py_trunc
  rw [if_pos (by norm_num)]
  rw [Int.floor_eq_iff]
  constructor <;> norm_num

theorem segment_progress_0_10_6 : segment_progress 0 10 6 = 62 := by
  have f1 : fl ((7 : ℚ)/10) = (6305039478318694 : ℚ) * 2 ^ ((-1 : Int) - 52) := by
    apply fl_eval _ (-1) _ (by norm_num) (by norm_num) (by norm_num)
    rw [show ((7 : ℚ)/10) / 2 ^ ((-1 : Int) - 52) = 63050394783186944/10 from by norm_num]
    exact rhe_eq_down _ 6305039478318694 (by norm_num) (by norm_num)
  have f2 : fl ((6305039478318694 : ℚ) * 2 ^ ((-1 : Int) - 52) * 90)
      = (8866461766385663 : ℚ) * 2 ^ ((5 : Int) - 52) := by
    apply fl_eval _ 5 _ (by norm_num) (by norm_num) (by norm_num)
    rw [show ((6305039478318694 : ℚ) * 2 ^ ((-1 : Int) - 52) * 90) / 2 ^ ((5 : Int) - 52)
      = 141863388262170615/16 from by norm_num]
    exact rhe_eq_down _ 8866461766385663 (by norm_num) (by norm_num)
  have f3 : fl ((0 : ℚ) + (8866461766385663 : ℚ) * 2 ^ ((5 : Int) - 52))
      = (8866461766385663 : ℚ) * 2 ^ ((5 : Int) - 52) := by
    apply fl_eval _ 5 _ (by norm_num) (by norm_num) (by norm_num)
    rw [show ((0 : ℚ) + (8866461766385663 : ℚ) * 2 ^ ((5 : Int) - 52)) / 2 ^ ((5 : Int) - 52)
      = 8866461766385663 from by norm_num]
    exact rhe_eq_down _ 8866461766385663 (by norm_num) (by norm_num)
  unfold segment_progress
  rw [show ((((6 : Nat) : ℚ)) + 1) / (((10 : Nat)) : ℚ) = 7/10 from by norm_num]
  rw [show ((90 : ℚ) - (((0 : Nat)) : ℚ)) = 90 from by norm_num]
  rw [f1, f2]
  rw [show (((0 : Nat)) : ℚ) = (0 : ℚ) from by norm_num]
  rw [f3]
  unfold py_trunc
  rw [if_pos (by norm_num)]
  rw [Int.floor_eq_iff]
  constructor <;> norm_num

theorem segment_progress_10 : segment_progress 10 3 0 = 36 ∧
    segment_progress 10 3 1 = 63 ∧ segment_progress 10 3 2 = 90 :=
  ⟨segment_progress_10_3_0, segment_progress_10_3_1,
    segment_progress_last 10 3 2 (by decide) (by decide) rfl⟩

theorem segment_progress_0_1_0 : segment_progress 0 1 0 = 90 :=
  segment_progress_last 0 1 0 (by decide) (by decide) rfl

/-- C3 counterexample: with `num_segments = 3` and `initial_progress = 10`
the first progress update is 36 (double arithmetic then truncation), not
the 37 predicted by the spec's rounding formula — the claimed sequence
37, 63, 90 is wrong at its first element. -/
theorem progress_rounds_counterexample :
    segment_progress 10 3 0 = 36 ∧
    spec_segment_progress 10 3 0 = 37 ∧
    segment_progress 10 3 0 ≠ spec_segment_progress 10 3 0 := by
  have h1 : segment_progress 10 3 0 = 36 := segment_progress_10.1
  have h2 : spec_segment_progress 10 3 0 = 37 := by
    unfold spec_segment_progress
    have h3 : (((0 : Nat) : ℚ) + 1) / ((3 : Nat) : ℚ) * ((90 : ℚ) - ((10 : Nat) : ℚ))
        = 80 / 3 := by
      norm_num
    rw [h3, round_eq]
    norm_num [Int.floor_eq_iff]
  exact ⟨h1, h2, by omega⟩

/-- C3 (amended): after segment `i` completes (success path), the
progress patched is the IEEE-754 binary64 evaluation of
`int(initial_progress + ((i+1)/num_segments) × (90 − initial_progress))`
— truncation of correctly rounded double arithmetic, which agrees with
neither the spec's `round` (the 3-segment example's first update is 36,
not 37) nor the exact rational floor (at `initial_progress = 0`,
`num_segments = 10`, `i = 6` the program patches 62 where the exact
floor is 63).  The value still stays within `[initial_progress, 90]`,
is non-decreasing in `i`, and reaches exactly 90 on the last
segment. -/
theorem progress_float_truncation (ip n i : Nat) (h90 : ip ≤ 90) (hn : 0 < n)
    (hi : i < n) :
    (ip : Int) ≤ segment_progress ip n i ∧
    segment_progress ip n i ≤ 90 ∧
    (i + 1 = n → segment_progress ip n i = 90) ∧
    (∀ j, i ≤ j → segment_progress ip n i ≤ segment_progress ip n j) ∧
    segment_progress 10 3 0 = 36 ∧
    segment_progress 10 3 1 = 63 ∧
    segment_progress 10 3 2 = 90 ∧
    segment_progress 0 10 6 = 62 ∧
    (((6 + 1) * (90 - 0) / 10 : Nat) : Int) = 63 :=
  ⟨segment_progress_ge ip n i h90, segment_progress_le_90 ip n i h90 hn hi,
    fun hl => segment_progress_last ip n i h90 hn hl,
    fun _ hj => segment_progress_mono ip n h90 hj,
    segment_progress_10.1, segment_progress_10.2.1, segment_progress_10.2.2,
    segment_progress_0_10_6, by decide⟩

/-- Witness for `progress_float_truncation` at `ip = 10`, `n = 3`,
`i = 0`. -/
theorem progress_float_truncation_witness :
    (10 ≤ 90 ∧ 0 < 3 ∧ 0 < 3) ∧
    ((10 : Int) ≤ segment_progress 10 3 0 ∧
      segment_progress 10 3 0 ≤ 90 ∧
      (0 + 1 = 3 → segment_progress 10 3 0 = 90) ∧
      (∀ j, 0 ≤ j → segment_progress 10 3 0 ≤ segment_progress 10 3 j) ∧
      segment_progress 10 3 0 = 36 ∧
      segment_progress 10 3 1 = 63 ∧
      segment_progress 10 3 2 = 90 ∧
      segment_progress 0 10 6 = 62 ∧
      (((6 + 1) * (90 - 0) / 10 : Nat) : Int) = 63) :=
  ⟨⟨by decide, by decide, by decide⟩,
    progress_float_truncation 10 3 0 (by decide) (by decide) (by decide)⟩

/-! ## Trace lemmas -/

theorem patches_append (l1 l2 : List Ev) :
    patches (l1 ++ l2) = patches l1 ++ patches l2 :=
  List.filterMap_append _ _ _

theorem patches_seg_events_transcribed (ip n i : Nat) (t : String) :
    patches (seg_events ip n i (.transcribed t))
      = [{ progress := some (segment_progress ip n i) }] := by
  simp [seg_events, patches]

theorem seg_events_patch_fields (ip n i : Nat) (b : SegBehavior) :
    ∀ q ∈ patches (seg_events ip n i b),
      q.status = none ∧ q.error = none ∧ q.result_file = none := by
  intro q hq
  cases b with
  | extract_raise m ex =>
      cases ex <;> simp [seg_events, patches] at hq
  | extract_fail ex =>
      simp [seg_events, patches] at hq
  | transcribe_raise m =>
      simp [seg_events, patches] at hq
  | transcribed t =>
      rw [patches_seg_events_transcribed] at hq
      simp at hq
      subst hq
      exact ⟨rfl, rfl, rfl⟩

theorem progress_patches_flat (ip n : Nat) (seg : Nat → SegBehavior) (l : List Nat) :
    (patches (l.flatMap fun i => seg_events ip n i (seg i))).filterMap (·.progress)
      = l.filterMap fun i => seg_progress_patch ip n i (seg i) := by
  induction l with
  | nil => simp [patches]
  | cons a l ih =>
      rw [List.flatMap_cons, patches_append, List.filterMap_append, ih,
        List.filterMap_cons]
      cases h : seg a with
      | extract_raise m ex =>
          cases ex <;> simp [seg_events, patches, seg_progress_patch]
      | extract_fail ex =>
          simp [seg_events, patches, seg_progress_patch]
      | transcribe_raise m =>
          simp [seg_events, patches, seg_progress_patch]
      | transcribed t =>
          simp [seg_events, patches, seg_progress_patch]

theorem transcribe_events_eq (d ip : Nat) (seg : Nat → SegBehavior) :
    (transcribe_audio_file_streaming d ip seg).events
      = Ev.patch { audio_duration := some (effective_duration d) } ::
          ((List.range (segment_count d)).flatMap
              (fun i => seg_events ip (segment_count d) i (seg i)) ++
            [Ev.remove_src_attempt]) := rfl

theorem progress_patches_transcribe (d ip : Nat) (seg : Nat → SegBehavior) :
    progress_patches (transcribe_audio_file_streaming d ip seg).events
      = (List.range (segment_count d)).filterMap fun i =>
          seg_progress_patch ip (segment_count d) i (seg i) := by
  rw [progress_patches, transcribe_events_eq]
  show (patches (Ev.patch { audio_duration := some (effective_duration d) } ::
      ((List.range (segment_count d)).flatMap
          (fun i => seg_events ip (segment_count d) i (seg i)) ++
        [Ev.remove_src_attempt]))).filterMap (·.progress) = _
  rw [show patches (Ev.patch { audio_duration := some (effective_duration d) } ::
      ((List.range (segment_count d)).flatMap
          (fun i => seg_events ip (segment_count d) i (seg i)) ++
        [Ev.remove_src_attempt]))
    = { audio_duration := some (effective_duration d) } ::
        patches ((List.range (segment_count d)).flatMap
            (fun i => seg_events ip (segment_count d) i (seg i)) ++
          [Ev.remove_src_attempt]) from rfl]
  rw [patches_append]
  rw [show patches [Ev.remove_src_attempt] = [] from rfl]
  rw [List.append_nil, List.filterMap_cons]
  simp only [progress_patches_flat]

theorem progress_patches_file (d ip : Nat) (seg : Nat → SegBehavior) (sm : Bool)
    (so : Except String String) (w : WriteOutcome) :
    progress_patches (process_audio_from_file d ip seg sm so w).events
      = ((List.range (segment_count d)).filterMap fun i =>
            seg_progress_patch ip (segment_count d) i (seg i))
          ++ (if sm then [(95 : Int)] else []) ++ [100] := by
  have hsum : (patches (if sm then grok_events else [])).filterMap (·.progress)
      = (if sm then [(95 : Int)] else []) := by
    cases sm <;> simp [grok_events, patches]
  cases w <;>
    · simp only [process_audio_from_file, progress_patches, patches_append,
        List.filterMap_append]
      rw [← progress_patches_transcribe d ip seg]
      rw [show ∀ p : Patch, patches [Ev.patch p, Ev.remove_src_attempt] = [p]
        from fun p => rfl]
      simp only [hsum, progress_patches]
      simp [patches]

theorem head_scanl_map (b : TaskState) (ps : List Patch) :
    (((ps.scanl apply_patch b).map (·.progress)).head?) = some b.progress := by
  cases ps <;> simp [List.scanl]

theorem chain_progress_of_patches (ps : List Patch) (s : TaskState)
    (h : List.Chain' (· ≤ ·) (s.progress :: ps.filterMap (·.progress))) :
    List.Chain' (· ≤ ·) ((ps.scanl apply_patch s).map (·.progress)) := by
  induction ps generalizing s with
  | nil => simp [List.scanl]
  | cons p ps ih =>
      have hsc : ((p :: ps).scanl apply_patch s).map (·.progress)
          = s.progress :: ((ps.scanl apply_patch (apply_patch s p)).map (·.progress)) := by
        simp [List.scanl_cons]
      rw [hsc, List.chain'_cons']
      cases hp : p.progress with
      | none =>
          have hps : (apply_patch s p).progress = s.progress := by
            simp [apply_patch, hp]
          have hfm : (p :: ps).filterMap (·.progress) = ps.filterMap (·.progress) := by
            rw [List.filterMap_cons, hp]
          rw [hfm] at h
          constructor
          · intro y hy
            rw [head_scanl_map, Option.mem_some_iff] at hy
            rw [← hy, hps]
          · exact ih (apply_patch s p) (by rw [hps]; exact h)
      | some v =>
          have hps : (apply_patch s p).progress = v := by
            simp [apply_patch, hp]
          have hfm : (p :: ps).filterMap (·.progress)
              = v :: ps.filterMap (·.progress) := by
            rw [List.filterMap_cons, hp]
          rw [hfm, List.chain'_cons] at h
          constructor
          · intro y hy
            rw [head_scanl_map, Option.mem_some_iff] at hy
            rw [← hy, hps]
            exact h.1
          · exact ih (apply_patch s p) (by rw [hps]; exact h.2)

theorem filterMap_sublist_map {α β : Type} (l : List α) (g : α → Option β)
    (f : α → β) (h : ∀ a ∈ l, ∀ b, g a = some b → b = f a) :
    (l.filterMap g).Sublist (l.map f) := by
  induction l with
  | nil => simp
  | cons a l ih =>
      rw [List.filterMap_cons, List.map_cons]
      have ih' := ih fun x hx => h x (List.mem_cons_of_mem _ hx)
      cases hga : g a with
      | none => exact ih'.cons _
      | some b =>
          have hb : b = f a := h a (List.mem_cons_self a l) b hga
          rw [hb]
          exact ih'.cons₂ _

theorem seg_vals_pairwise (n ip : Nat) (seg : Nat → SegBehavior) (h90 : ip ≤ 90) :
    ((List.range n).filterMap fun i => seg_progress_patch ip n i (seg i)).Pairwise
      (· ≤ ·) := by
  have hsub : ((List.range n).filterMap fun i => seg_progress_patch ip n i (seg i)).Sublist
      ((List.range n).map fun i => segment_progress ip n i) := by
    apply filterMap_sublist_map
    intro a _ b hb
    cases h : seg a <;> rw [h] at hb <;> simp [seg_progress_patch] at hb
    exact hb.symm
  have hpw : ((List.range n).map fun i => segment_progress ip n i).Pairwise (· ≤ ·) := by
    exact List.Pairwise.map _
      (fun a b hab => segment_progress_mono ip n h90 (Nat.le_of_lt hab))
      (List.pairwise_lt_range n)
  exact hpw.sublist hsub

theorem seg_vals_bounds (n ip : Nat) (seg : Nat → SegBehavior) (h90 : ip ≤ 90)
    (hn : 0 < n) :
    ∀ x ∈ (List.range n).filterMap fun i => seg_progress_patch ip n i (seg i),
      0 ≤ x ∧ x ≤ 90 := by
  intro x hx
  rw [List.mem_filterMap] at hx
  obtain ⟨a, ha, hga⟩ := hx
  rw [List.mem_range] at ha
  cases h : seg a <;> rw [h] at hga <;> simp [seg_progress_patch] at hga
  rw [← hga]
  constructor
  · have := segment_progress_ge ip n a h90
    omega
  · exact segment_progress_le_90 ip n a h90 hn ha

theorem chain_file_progress_patches (d ip : Nat) (seg : Nat → SegBehavior)
    (sm : Bool) (so : Except String String) (w : WriteOutcome) (h90 : ip ≤ 90) :
    List.Chain' (· ≤ ·)
      ((0 : Int) :: progress_patches (process_audio_from_file d ip seg sm so w).events) := by
  rw [progress_patches_file, List.chain'_iff_pairwise]
  have hn : 0 < segment_count d := segment_count_pos d
  have hb := seg_vals_bounds (segment_count d) ip seg h90 hn
  have hpw := seg_vals_pairwise (segment_count d) ip seg h90
  have hmid : ∀ x ∈ (if sm then [(95 : Int)] else []), x = 95 := by
    cases sm <;> simp
  rw [List.pairwise_cons]
  constructor
  · intro b hb'
    rw [List.mem_append, List.mem_append] at hb'
    rcases hb' with (hv | hm) | hl
    · exact (hb b hv).1
    · rw [hmid b hm]; norm_num
    · rw [List.mem_singleton] at hl
      rw [hl]; norm_num
  · rw [List.pairwise_append]
    refine ⟨?_, by simp, ?_⟩
    · rw [List.pairwise_append]
      refine ⟨hpw, by cases sm <;> simp, ?_⟩
      intro a ha b hbm
      rw [hmid b hbm]
      have := (hb a ha).2
      omega
    · intro a ha b hbl
      rw [List.mem_singleton] at hbl
      rw [hbl]
      rw [List.mem_append] at ha
      rcases ha with hv | hm
      · have := (hb a hv).2
        omega
      · rw [hmid a hm]; norm_num

theorem initial_progress_zero : initial_task_state.progress = 0 := rfl

theorem chain_file_progress_trace (d ip : Nat) (seg : Nat → SegBehavior)
    (sm : Bool) (so : Except String String) (w : WriteOutcome) (h90 : ip ≤ 90) :
    List.Chain' (· ≤ ·)
      (progress_trace (process_audio_from_file d ip seg sm so w).events) := by
  rw [progress_trace, observed_states]
  exact chain_progress_of_patches _ initial_task_state
    (chain_file_progress_patches d ip seg sm so w h90)

theorem foldl_patches_last (ps : List Patch) (p : Patch) (s : TaskState) :
    (ps ++ [p]).foldl apply_patch s = apply_patch (ps.foldl apply_patch s) p := by
  rw [List.foldl_append]
  rfl

theorem file_patches_split (d ip : Nat) (seg : Nat → SegBehavior) (sm : Bool)
    (so : Except String String) (w : WriteOutcome) :
    patches (process_audio_from_file d ip seg sm so w).events
      = patches (transcribe_audio_file_streaming d ip seg).events
        ++ patches (if sm then grok_events else [])
        ++ [match w with
            | .ok => { status := some "done", progress := some 100, result_file := some true }
            | .fail msg => { status := some "error", progress := some 100, error := some msg }] := by
  cases w <;>
    · simp only [process_audio_from_file, patches_append]
      rfl

theorem final_state_file (d ip : Nat) (seg : Nat → SegBehavior) (sm : Bool)
    (so : Except String String) (w : WriteOutcome) :
    final_state (process_audio_from_file d ip seg sm so w).events
      = apply_patch
          ((patches (transcribe_audio_file_streaming d ip seg).events
              ++ patches (if sm then grok_events else [])).foldl apply_patch
            initial_task_state)
          (match w with
            | .ok => { status := some "done", progress := some 100, result_file := some true }
            | .fail msg => { status := some "error", progress := some 100, error := some msg }) := by
  rw [final_state, file_patches_split]
  simp only [List.foldl_append]
  rfl

theorem final_state_file_ok_done (d ip : Nat) (seg : Nat → SegBehavior) (sm : Bool)
    (so : Except String String) :
    (final_state (process_audio_from_file d ip seg sm so .ok).events).status = "done" ∧
    (final_state (process_audio_from_file d ip seg sm so .ok).events).progress = 100 ∧
    (final_state (process_audio_from_file d ip seg sm so .ok).events).has_result = true := by
  rw [final_state_file]
  exact ⟨rfl, rfl, rfl⟩

theorem final_state_file_fail (d ip : Nat) (seg : Nat → SegBehavior) (sm : Bool)
    (so : Except String String) (msg : String) :
    (final_state (process_audio_from_file d ip seg sm so (.fail msg)).events).status
        = "error" ∧
    (final_state (process_audio_from_file d ip seg sm so (.fail msg)).events).progress
        = 100 := by
  rw [final_state_file]
  exact ⟨rfl, rfl⟩

theorem final_state_youtube_dl_fail (e : String) (d : Nat)
    (seg : Nat → SegBehavior) (sm : Bool) (so : Except String String)
    (w : WriteOutcome) :
    (final_state (process_youtube_url (.error e) d seg sm so w).events).status
        = "error" ∧
    (final_state (process_youtube_url (.error e) d seg sm so w).events).progress
        = 0 := by
  exact ⟨rfl, rfl⟩

/-- C4 counterexample: on the URL pipeline a download failure patches
`progress=0` after `progress=5` was observed — progress regresses and is
not frozen; and on the file pipeline a result-write failure ends at
`status='error'` with `progress=100`, so `progress = 100` does not imply
`status = done`. -/
theorem progress_invariant_counterexample :
    progress_trace (process_youtube_url (.error "download failed") 60 fail_seg false
        (.ok "") .ok).events = [0, 5, 0] ∧
    ¬ List.Chain' (· ≤ ·)
      (progress_trace (process_youtube_url (.error "download failed") 60 fail_seg false
          (.ok "") .ok).events) ∧
    (final_state (process_audio_from_file 60 0 fail_seg false (.ok "")
        (.fail "disk full")).events).status = "error" ∧
    (final_state (process_audio_from_file 60 0 fail_seg false (.ok "")
        (.fail "disk full")).events).progress = 100 ∧
    ("error" : String) ≠ "done" := by
  have h : progress_trace (process_youtube_url (.error "download failed") 60 fail_seg
      false (.ok "") .ok).events = [0, 5, 0] := by decide
  refine ⟨h, ?_, by decide, by decide, by decide⟩
  rw [h]
  intro hc
  rw [List.chain'_cons, List.chain'_cons] at hc
  exact absurd hc.2.1 (by norm_num)

/-- C4 (amended): inside `process_audio_from_file` the observed progress
sequence is non-decreasing for every environment and write outcome —
but not because errors freeze progress: an uncaught failure there
overwrites progress to 100 (together with `status='error'`), so
`progress = 100` holds at `done` but also on that error path; and the
URL pipeline's download-failure handler overwrites progress to 0, which
regresses past the `progress=5` patch it already made. -/
theorem progress_monotone_amended (d ip : Nat) (seg : Nat → SegBehavior) (sm : Bool)
    (so : Except String String) (w : WriteOutcome) (msg e : String) (h90 : ip ≤ 90) :
    List.Chain' (· ≤ ·)
      (progress_trace (process_audio_from_file d ip seg sm so w).events) ∧
    (final_state (process_audio_from_file d ip seg sm so .ok).events).status = "done" ∧
    (final_state (process_audio_from_file d ip seg sm so .ok).events).progress = 100 ∧
    (final_state (process_audio_from_file d ip seg sm so (.fail msg)).events).status
        = "error" ∧
    (final_state (process_audio_from_file d ip seg sm so (.fail msg)).events).progress
        = 100 ∧
    (final_state (process_youtube_url (.error e) d seg sm so w).events).status
        = "error" ∧
    (final_state (process_youtube_url (.error e) d seg sm so w).events).progress = 0 :=
  ⟨chain_file_progress_trace d ip seg sm so w h90,
    (final_state_file_ok_done d ip seg sm so).1,
    (final_state_file_ok_done d ip seg sm so).2.1,
    (final_state_file_fail d ip seg sm so msg).1,
    (final_state_file_fail d ip seg sm so msg).2,
    (final_state_youtube_dl_fail e d seg sm so w).1,
    (final_state_youtube_dl_fail e d seg sm so w).2⟩

/-- Witness for `progress_monotone_amended` at a concrete run. -/
theorem progress_monotone_amended_witness :
    (0 ≤ 90) ∧
    (List.Chain' (· ≤ ·)
      (progress_trace (process_audio_from_file 660 0 wit_seg true (.ok "s") .ok).events) ∧
    (final_state (process_audio_from_file 660 0 wit_seg true (.ok "s") .ok).events).status
        = "done" ∧
    (final_state (process_audio_from_file 660 0 wit_seg true (.ok "s") .ok).events).progress
        = 100 ∧
    (final_state (process_audio_from_file 660 0 wit_seg true (.ok "s")
        (.fail "disk full")).events).status = "error" ∧
    (final_state (process_audio_from_file 660 0 wit_seg true (.ok "s")
        (.fail "disk full")).events).progress = 100 ∧
    (final_state (process_youtube_url (.error "boom") 660 wit_seg true (.ok "s")
        .ok).events).status = "error" ∧
    (final_state (process_youtube_url (.error "boom") 660 wit_seg true (.ok "s")
        .ok).events).progress = 0) :=
  ⟨by decide,
    progress_monotone_amended 660 0 wit_seg true (.ok "s") .ok "disk full" "boom"
      (by decide)⟩

theorem mem_patches_flat {q : Patch} (ip n : Nat) (seg : Nat → SegBehavior)
    (l : List Nat)
    (hq : q ∈ patches (l.flatMap fun i => seg_events ip n i (seg i))) :
    ∃ i ∈ l, q ∈ patches (seg_events ip n i (seg i)) := by
  rw [patches, List.mem_filterMap] at hq
  obtain ⟨e, he, hme⟩ := hq
  rw [List.mem_flatMap] at he
  obtain ⟨i, hi, hei⟩ := he
  refine ⟨i, hi, ?_⟩
  rw [patches, List.mem_filterMap]
  exact ⟨e, hei, hme⟩

theorem transcribe_patches_fields (d ip : Nat) (seg : Nat → SegBehavior) :
    ∀ q ∈ patches (transcribe_audio_file_streaming d ip seg).events,
      q.status = none ∧ q.error = none ∧ q.result_file = none := by
  intro q hq
  rw [transcribe_events_eq] at hq
  rw [show patches (Ev.patch { audio_duration := some (effective_duration d) } ::
      ((List.range (segment_count d)).flatMap
          (fun i => seg_events ip (segment_count d) i (seg i)) ++
        [Ev.remove_src_attempt]))
    = { audio_duration := some (effective_duration d) } ::
        patches ((List.range (segment_count d)).flatMap
            (fun i => seg_events ip (segment_count d) i (seg i)) ++
          [Ev.remove_src_attempt]) from rfl] at hq
  rcases List.mem_cons.mp hq with rfl | hq'
  · exact ⟨rfl, rfl, rfl⟩
  · rw [patches_append] at hq'
    rw [List.mem_append] at hq'
    rcases hq' with hq'' | hq''
    · obtain ⟨i, _, hqi⟩ := mem_patches_flat ip (segment_count d) seg _ hq''
      exact seg_events_patch_fields ip (segment_count d) i (seg i) q hqi
    · simp [patches] at hq''

theorem file_ok_patches_error_none (d ip : Nat) (seg : Nat → SegBehavior)
    (sm : Bool) (so : Except String String) :
    ∀ q ∈ patches (process_audio_from_file d ip seg sm so .ok).events,
      q.error = none := by
  intro q hq
  rw [file_patches_split] at hq
  rw [List.mem_append, List.mem_append] at hq
  rcases hq with (ht | hs) | hl
  · exact (transcribe_patches_fields d ip seg q ht).2.1
  · cases sm <;> simp [grok_events, patches] at hs
    rw [hs]
  · rw [List.mem_singleton] at hl
    rw [hl]

theorem foldl_error_none (ps : List Patch) (s : TaskState) (hs : s.error = none)
    (h : ∀ q ∈ ps, q.error = none) : (ps.foldl apply_patch s).error = none := by
  induction ps generalizing s with
  | nil => exact hs
  | cons p ps ih =>
      rw [List.foldl_cons]
      refine ih (apply_patch s p) ?_ fun q hq => h q (List.mem_cons_of_mem _ hq)
      have hp : p.error = none := h p (List.mem_cons_self p ps)
      simp [apply_patch, hp, hs]

theorem final_state_file_ok_error_none (d ip : Nat) (seg : Nat → SegBehavior)
    (sm : Bool) (so : Except String String) :
    (final_state (process_audio_from_file d ip seg sm so .ok).events).error = none := by
  rw [final_state]
  exact foldl_error_none _ _ rfl (file_ok_patches_error_none d ip seg sm so)

/-- C1: if segment `k`'s extraction or transcription fails, position `k`
of the per-segment text list is a sentinel error marker while every
other position is unaffected (it depends only on that segment's own
behaviour: changing any environment but `k`'s leaves it unchanged); the
transcript is the concatenation of all per-segment texts in index order
with the single uniform delimiter `"\n\n"`; and the task still reaches
`done`. -/
theorem segment_failure_isolated (d ip k : Nat) (seg seg' : Nat → SegBehavior)
    (sm : Bool) (so : Except String String)
    (hk : k < segment_count d) (hfail : seg_failed (seg k) = true)
    (hagree : ∀ j, j ≠ k → seg j = seg' j) :
    (seg_texts (segment_count d) seg)[k]? = some (seg_text k (seg k)) ∧
    (∃ rest, seg_text k (seg k) = "[片段 " ++ rest) ∧
    (∀ j, j ≠ k → (seg_texts (segment_count d) seg)[j]?
        = (seg_texts (segment_count d) seg')[j]?) ∧
    (transcribe_audio_file_streaming d ip seg).transcript
        = String.intercalate "\n\n" (seg_texts (segment_count d) seg) ∧
    (final_state (process_audio_from_file d ip seg sm so .ok).events).status
        = "done" := by
  refine ⟨?_, ?_, ?_, rfl, (final_state_file_ok_done d ip seg sm so).1⟩
  · rw [seg_texts, List.getElem?_map, List.getElem?_range hk]
    rfl
  · cases h : seg k with
    | extract_raise m ex => exact ⟨_, rfl⟩
    | extract_fail ex => exact ⟨_, rfl⟩
    | transcribe_raise m => exact ⟨_, rfl⟩
    | transcribed t => rw [h, seg_failed] at hfail; simp at hfail
  · intro j hj
    by_cases hjn : j < segment_count d
    · rw [seg_texts, seg_texts, List.getElem?_map, List.getElem?_map,
        List.getElem?_range hjn]
      simp only [Option.map_some']
      rw [hagree j hj]
    · rw [List.getElem?_eq_none, List.getElem?_eq_none]
      · simp [seg_texts]
        omega
      · simp [seg_texts]
        omega

/-- Witness for `segment_failure_isolated`: duration 660 s (two
segments), segment 0 fails extraction, segment 1 transcribes real
text. -/
theorem segment_failure_isolated_witness :
    (seg_texts (segment_count 660) wit_seg)[0]? = some (seg_text 0 (wit_seg 0)) ∧
    (∃ rest, seg_text 0 (wit_seg 0) = "[片段 " ++ rest) ∧
    (∀ j, j ≠ 0 → (seg_texts (segment_count 660) wit_seg)[j]?
        = (seg_texts (segment_count 660) wit_seg)[j]?) ∧
    (transcribe_audio_file_streaming 660 0 wit_seg).transcript
        = String.intercalate "\n\n" (seg_texts (segment_count 660) wit_seg) ∧
    (final_state (process_audio_from_file 660 0 wit_seg false (.ok "") .ok).events).status
        = "done" :=
  segment_failure_isolated 660 0 0 wit_seg wit_seg false (.ok "")
    (by decide) (by decide) (fun j _ => rfl)

/-- C5 counterexample: a segment whose (single) transcription submission
fails receives the sentinel marker immediately — after exactly 1
attempt, not after the claimed 3. -/
theorem single_attempt_counterexample :
    seg_transcribe_calls (.transcribe_raise "boom") = 1 ∧
    seg_failed (.transcribe_raise "boom") = true ∧
    (∃ rest, seg_text 5 (.transcribe_raise "boom") = "[片段 " ++ rest) ∧
    seg_transcribe_calls (.transcribe_raise "boom") ≠ session_retry_total :=
  ⟨rfl, rfl, ⟨_, rfl⟩, by decide⟩

/-- C5 (amended): each segment's bytes are submitted to the
transcription client at most once — exactly once when extraction
succeeded, never after an extraction failure — with no retry loop and
no backoff; any transcription failure immediately yields the sentinel
marker. The only retry-with-backoff configuration in the module
(`total=3, backoff_factor=1`) belongs to the pooled HTTP session used by
the Grok summarization API, not to transcription. -/
theorem transcription_single_attempt :
    (∀ b, seg_transcribe_calls b ≤ 1) ∧
    (∀ m, seg_transcribe_calls (.transcribe_raise m) = 1) ∧
    (∀ t, seg_transcribe_calls (.transcribed t) = 1) ∧
    (∀ i m, ∃ rest, seg_text i (.transcribe_raise m) = "[片段 " ++ rest) ∧
    session_retry_total = 3 ∧ session_backoff_factor = 1 := by
  refine ⟨?_, fun m => rfl, fun t => rfl, fun i m => ⟨_, rfl⟩, rfl, rfl⟩
  intro b
  cases b <;> simp [seg_transcribe_calls]

/-- Witness instantiating `transcription_single_attempt`. -/
theorem transcription_single_attempt_witness :
    seg_transcribe_calls (.extract_fail true) ≤ 1 :=
  transcription_single_attempt.1 (.extract_fail true)

/-- C6 counterexample: summarization requested and failing — the stored
result is the fixed-format composed document with an empty summary
section, not the transcript alone, and the failure detail is discarded:
no patch of the run ever sets the error field. -/
theorem summary_failure_counterexample :
    (process_audio_from_file 60 0 fail_seg true (.error "api down") .ok).written
        ≠ some ((transcribe_audio_file_streaming 60 0 fail_seg).transcript) ∧
    (process_audio_from_file 60 0 fail_seg true (.error "api down") .ok).written
        = some (compose_result ""
            (transcribe_audio_file_streaming 60 0 fail_seg).transcript) ∧
    (∀ q ∈ patches (process_audio_from_file 60 0 fail_seg true (.error "api down")
        .ok).events, q.error = none) ∧
    (final_state (process_audio_from_file 60 0 fail_seg true (.error "api down")
        .ok).events).status = "done" := by
  refine ⟨by decide, rfl, file_ok_patches_error_none 60 0 fail_seg true _,
    (final_state_file_ok_done 60 0 fail_seg true _).1⟩

/-- C6 (amended): when summarization fails, the stored result is the
composed document whose summary section is empty (the transcript is
embedded in it, but the result does not equal the transcript alone);
the error detail returned by the summarizer is discarded — no patch of
the run writes the Task's error field, which therefore stays `none` —
and the task still ends `done` with `progress = 100`. -/
theorem summary_failure_degrades (d ip : Nat) (seg : Nat → SegBehavior)
    (msg : String) :
    (process_audio_from_file d ip seg true (.error msg) .ok).written
        = some (compose_result ""
            (transcribe_audio_file_streaming d ip seg).transcript) ∧
    (grok_summary (.error msg)).1 = "" ∧
    (grok_summary (.error msg)).2 = msg ∧
    (∀ q ∈ patches (process_audio_from_file d ip seg true (.error msg) .ok).events,
        q.error = none) ∧
    (final_state (process_audio_from_file d ip seg true (.error msg) .ok).events).status
        = "done" ∧
    (final_state (process_audio_from_file d ip seg true (.error msg) .ok).events).progress
        = 100 ∧
    (final_state (process_audio_from_file d ip seg true (.error msg) .ok).events).error
        = none :=
  ⟨rfl, rfl, rfl, file_ok_patches_error_none d ip seg true _,
    (final_state_file_ok_done d ip seg true _).1,
    (final_state_file_ok_done d ip seg true _).2.1,
    final_state_file_ok_error_none d ip seg true _⟩

/-- Witness instantiating `summary_failure_degrades`. -/
theorem summary_failure_degrades_witness :
    (process_audio_from_file 60 0 fail_seg true (.error "boom") .ok).written
        = some (compose_result ""
            (transcribe_audio_file_streaming 60 0 fail_seg).transcript) :=
  (summary_failure_degrades 60 0 fail_seg "boom").1

/-- C7 counterexample: ffmpeg exits nonzero with a partial output file
on disk — the `continue` path performs no deletion attempt, so the
artifact persists past the loop iteration. -/
theorem extract_fail_keeps_artifact :
    seg_file_exists_after (.extract_fail true) = true ∧
    seg_events 0 1 0 (.extract_fail true) = [] ∧
    Ev.remove_seg_attempt 0 ∉ seg_events 0 1 0 (.extract_fail true) :=
  ⟨rfl, rfl, by decide⟩

/-- C7 (amended): the segment artifact deletion is attempted on every
exit path on which the file can exist — success, empty transcription,
and exception — except the extraction-failure `continue` path, which
attempts no deletion even when a partial output file exists. -/
theorem artifact_deleted_except_extract_fail (ip n i : Nat) (b : SegBehavior)
    (hex : seg_file_exists_after b = true)
    (hnb : ∀ ex, b ≠ .extract_fail ex) :
    Ev.remove_seg_attempt i ∈ seg_events ip n i b := by
  cases b with
  | extract_raise m ex =>
      rw [seg_file_exists_after] at hex
      simp [seg_events, hex]
  | extract_fail ex => exact absurd rfl (hnb ex)
  | transcribe_raise m => simp [seg_events]
  | transcribed t => simp [seg_events]

/-- Witness for `artifact_deleted_except_extract_fail` on the exception
path. -/
theorem artifact_deleted_witness :
    Ev.remove_seg_attempt 0 ∈ seg_events 0 1 0 (.transcribe_raise "boom") :=
  artifact_deleted_except_extract_fail 0 1 0 (.transcribe_raise "boom") rfl
    (fun _ h => SegBehavior.noConfusion h)

/-- C8 counterexample: an undeterminable duration (probe returns 0) is
not fatal — the engine substitutes the 600 s default, runs exactly one
segment, transcribes it, never patches any status (in particular not
`error`), and the task reaches `done` with the segment's transcript. -/
theorem zero_duration_counterexample :
    effective_duration 0 = SEGMENT_DURATION ∧
    segment_count 0 = 1 ∧
    seg_transcribe_calls (ok_seg 0) = 1 ∧
    (transcribe_audio_file_streaming 0 0 ok_seg).transcript = "hello" ∧
    (∀ q ∈ patches (transcribe_audio_file_streaming 0 0 ok_seg).events,
        q.status = none) ∧
    (final_state (process_audio_from_file 0 0 ok_seg false (.ok "") .ok).events).status
        = "done" :=
  ⟨rfl, by decide, rfl, by decide,
    fun q hq => (transcribe_patches_fields 0 0 ok_seg q hq).1,
    (final_state_file_ok_done 0 0 ok_seg false _).1⟩

/-- C8 (amended): when the probed duration is 0 (undeterminable), the
engine substitutes `SEGMENT_DURATION` as the duration and proceeds with
one segment; the transcription function patches no status at all
(certainly not `error`), and the pipeline can still complete with
`done`. -/
theorem zero_duration_default (ip : Nat) (seg : Nat → SegBehavior) (sm : Bool)
    (so : Except String String) :
    effective_duration 0 = SEGMENT_DURATION ∧
    segment_count 0 = 1 ∧
    (∀ q ∈ patches (transcribe_audio_file_streaming 0 ip seg).events,
        q.status = none) ∧
    (final_state (process_audio_from_file 0 ip seg sm so .ok).events).status
        = "done" :=
  ⟨rfl, by decide, fun q hq => (transcribe_patches_fields 0 ip seg q hq).1,
    (final_state_file_ok_done 0 ip seg sm so).1⟩

/-- Witness instantiating `zero_duration_default`. -/
theorem zero_duration_default_witness :
    (final_state (process_audio_from_file 0 10 wit_seg true (.ok "s") .ok).events).status
        = "done" :=
  (zero_duration_default 10 wit_seg true (.ok "s")).2.2.2

/-- C9 counterexample: purging a store holding one expired task whose
linked result artifact `7` is on disk removes the row but leaves the
artifact in place, and returns `none` rather than the count 1. -/
theorem cleanup_keeps_artifacts_counterexample :
    (cleanup_old_tasks 10 wit_store).1.tasks = [] ∧
    (cleanup_old_tasks 10 wit_store).1.artifacts = [7] ∧
    7 ∈ (cleanup_old_tasks 10 wit_store).1.artifacts ∧
    (cleanup_old_tasks 10 wit_store).2 = none ∧
    (cleanup_old_tasks 10 wit_store).2 ≠ some 1 :=
  ⟨by decide, by decide, by decide, by decide, by decide⟩

/-- C9 (amended): `cleanup_old_tasks` deletes exactly the task rows whose
`created_at` precedes the cutoff; it performs no file operation, so the
linked result artifacts are untouched (a separate mtime-based sweep
handles result files); and it returns nothing — the removed count is
only logged. -/
theorem cleanup_only_rows (cutoff : Int) (st : StoreState) :
    (∀ t ∈ st.tasks, t.created_at < cutoff →
        t ∉ (cleanup_old_tasks cutoff st).1.tasks) ∧
    (∀ t ∈ st.tasks, cutoff ≤ t.created_at →
        t ∈ (cleanup_old_tasks cutoff st).1.tasks) ∧
    (∀ t ∈ (cleanup_old_tasks cutoff st).1.tasks, t ∈ st.tasks) ∧
    (cleanup_old_tasks cutoff st).1.artifacts = st.artifacts ∧
    (cleanup_old_tasks cutoff st).2 = none := by
  refine ⟨?_, ?_, ?_, rfl, rfl⟩
  · intro t ht hlt hmem
    rw [show (cleanup_old_tasks cutoff st).1.tasks
      = st.tasks.filter (fun t => ! decide (t.created_at < cutoff)) from rfl,
      List.mem_filter] at hmem
    simp at hmem
    omega
  · intro t ht hle
    rw [show (cleanup_old_tasks cutoff st).1.tasks
      = st.tasks.filter (fun t => ! decide (t.created_at < cutoff)) from rfl,
      List.mem_filter]
    refine ⟨ht, ?_⟩
    simp
    omega
  · intro t ht
    rw [show (cleanup_old_tasks cutoff st).1.tasks
      = st.tasks.filter (fun t => ! decide (t.created_at < cutoff)) from rfl,
      List.mem_filter] at ht
    exact ht.1

/-- Witness instantiating `cleanup_only_rows` on the concrete store. -/
theorem cleanup_only_rows_witness :
    (cleanup_old_tasks 10 wit_store).1.artifacts = wit_store.artifacts ∧
    (cleanup_old_tasks 10 wit_store).2 = none :=
  ⟨(cleanup_only_rows 10 wit_store).2.2.2.1, (cleanup_only_rows 10 wit_store).2.2.2.2⟩

/-- C10: on every run — every duration, environment, summarization flag
and write outcome — the trace of `transcribe_audio_file_streaming` ends
with an attempted removal of the source file (its `finally`), the trace
of `process_audio_from_file` also ends with an attempted removal (its
own `finally`), and the combined pipeline trace contains at least two
removal attempts of the source file. -/
theorem source_file_removed_both_layers (d ip : Nat) (seg : Nat → SegBehavior)
    (sm : Bool) (so : Except String String) (w : WriteOutcome) :
    (transcribe_audio_file_streaming d ip seg).events.getLast?
        = some Ev.remove_src_attempt ∧
    Ev.remove_src_attempt ∈ (transcribe_audio_file_streaming d ip seg).events ∧
    (process_audio_from_file d ip seg sm so w).events.getLast?
        = some Ev.remove_src_attempt ∧
    2 ≤ (process_audio_from_file d ip seg sm so w).events.count
        Ev.remove_src_attempt := by
  have h1 : (transcribe_audio_file_streaming d ip seg).events.getLast?
      = some Ev.remove_src_attempt := by
    rw [transcribe_events_eq, ← List.cons_append, List.getLast?_concat]
  have h2 : Ev.remove_src_attempt ∈ (transcribe_audio_file_streaming d ip seg).events := by
    rw [transcribe_events_eq]
    exact List.mem_cons_of_mem _ (List.mem_append_right _ (List.mem_singleton.mpr rfl))
  have hcount1 : 0 < (transcribe_audio_file_streaming d ip seg).events.count
      Ev.remove_src_attempt := List.count_pos_iff.mpr h2
  have hg : List.count Ev.remove_src_attempt (if sm then grok_events else []) = 0 := by
    cases sm <;> rfl
  refine ⟨h1, h2, ?_, ?_⟩
  · cases w <;>
      · simp only [process_audio_from_file]
        rw [List.getLast?_append]
        rfl
  · have hc : ∀ p : Patch,
        List.count Ev.remove_src_attempt [Ev.patch p, Ev.remove_src_attempt] = 1 :=
      fun p => rfl
    cases w <;>
      · simp only [process_audio_from_file]
        rw [List.count_append, List.count_append, hg, hc]
        omega

end AmwaySpeech
